import Mathlib

/-!
Verification of the Numbeo city-rankings harvesting and normalization
pipeline (`scraper.py`) and of its ETL merge stage (`import_db.py`).

Python strings are modelled as lists of characters (`Str`), pandas
DataFrames as explicit column lists with a row count, and the SQLite
store as an association list from table names to tables.  Effectful
code (the campaign loop, the importer) is modelled as pure functions of
the data the effects would deliver: the pages a browser session would
render, the CSV batches the filesystem would hold.
-/

/-- Python `str` values, modelled as lists of characters. -/
abbrev Str := List Char

/-- Whitespace as recognized by Python `str.strip()` (the ASCII
whitespace characters: space, tab, newline, carriage return, vertical
tab, form feed). -/
def isSpace (c : Char) : Bool :=
  c.toNat = 32 || c.toNat = 9 || c.toNat = 10 || c.toNat = 13 ||
  c.toNat = 11 || c.toNat = 12

/-- Python `str.strip()`: drop whitespace from both ends. -/
def trim (l : Str) : Str :=
  ((l.dropWhile isSpace).reverse.dropWhile isSpace).reverse

namespace Scraper

/-- Split a list at its last comma: `some (before, after)` when a comma
occurs, `none` otherwise.  This embeds `s.rfind(",")` together with the
slices `s[:idx]` and `s[idx+1:]` of `scraper.split_city_country`. -/
def splitAtLastComma : Str → Option (Str × Str)
  | [] => none
  | c :: rest =>
    match splitAtLastComma rest with
    | some p => some (c :: p.1, p.2)
    | none => if c = ',' then some ([], rest) else none

/-- `scraper.split_city_country`: strip the value; with no comma return
`(s, "")`, otherwise split on the last comma and strip both parts. -/
def split_city_country (val : Str) : Str × Str :=
  let s := trim val
  match splitAtLastComma s with
  | none => (s, [])
  | some p => (trim p.1, trim p.2)

/-- Lowercase alphanumeric ASCII characters, the class `[a-z0-9]` of the
regular expression in `scraper.normalize`. -/
def isAlnumLower (c : Char) : Bool :=
  (97 ≤ c.toNat && c.toNat ≤ 122) || (48 ≤ c.toNat && c.toNat ≤ 57)

/-- Python `str.lower()` on an ASCII letter (other characters are kept;
non-ASCII case conversion does not occur in the scraped labels). -/
def pyLower (c : Char) : Char :=
  if 65 ≤ c.toNat ∧ c.toNat ≤ 90 then Char.ofNat (c.toNat + 32) else c

/-- `re.sub(r"[^a-z0-9]+", "_", s)`: replace every maximal run of
characters outside `[a-z0-9]` by a single underscore. -/
def subNonAlnum : Str → Str
  | [] => []
  | [c] => if isAlnumLower c then [c] else ['_']
  | c :: d :: rest =>
    if isAlnumLower c then c :: subNonAlnum (d :: rest)
    else if isAlnumLower d then '_' :: subNonAlnum (d :: rest)
    else subNonAlnum (d :: rest)

/-- Python `str.strip(t)` for a single character `t`: drop copies of
`t` from both ends. -/
def stripChar (t : Char) (l : Str) : Str :=
  ((l.dropWhile (· == t)).reverse.dropWhile (· == t)).reverse

/-- `scraper.normalize`: convert a column header to `snake_case` via
`re.sub(r"[^a-z0-9]+", "_", name.strip().lower()).strip("_")`. -/
def normalize (name : Str) : Str :=
  stripChar '_' (subNonAlnum ((trim name).map pyLower))

/-- Row alignment inside `scraper.scrape_dataset`: a row shorter than
the header width is right-padded with empty strings, then every row is
cut to the header width (`row + [""] * (n_cols - len(row))` and
`row[:n_cols]`). -/
def alignRow (nCols : Nat) (row : List Str) : List Str :=
  let r := if row.length < nCols then
    row ++ List.replicate (nCols - row.length) ([] : Str) else row
  r.take nCols

-- Sanity checks against the documented behavior of the helpers.
example : normalize ("Cost of Living Index".toList) =
    ("cost_of_living_index".toList) := by decide
example : split_city_country ("New York, NY, United States".toList) =
    ("New York, NY".toList, "United States".toList) := by decide
example : alignRow 3 [("a".toList)] = [("a".toList), [], []] := by decide

/-- C6: aligning a row against a header list always yields a row of
exactly the header length; a shorter row is right-padded with empty
strings and a longer row is truncated to the header width. -/
theorem alignRow_spec (headers : List Str) (row : List Str) :
    (alignRow headers.length row).length = headers.length ∧
    (row.length < headers.length →
      alignRow headers.length row =
        row ++ List.replicate (headers.length - row.length) ([] : Str)) ∧
    (headers.length ≤ row.length →
      alignRow headers.length row = row.take headers.length) := by
  refine ⟨?_, ?_, ?_⟩
  · by_cases h : row.length < headers.length
    · have hlen : (row ++ List.replicate (headers.length - row.length)
          ([] : Str)).length = headers.length := by
        simp only [List.length_append, List.length_replicate]; omega
      simp only [alignRow, if_pos h, List.length_take, hlen]
      omega
    · simp only [alignRow, if_neg h, List.length_take]
      omega
  · intro h
    have hlen : (row ++ List.replicate (headers.length - row.length)
        ([] : Str)).length = headers.length := by
      simp only [List.length_append, List.length_replicate]; omega
    simp only [alignRow, if_pos h]
    exact List.take_of_length_le (le_of_eq hlen)
  · intro h
    have hnot : ¬ row.length < headers.length := by omega
    simp only [alignRow, if_neg hnot]

end Scraper

/-- Dropping while `p` holds skips any leading block of elements
satisfying `p`. -/
theorem dropWhile_append_all {p : Char → Bool} {ws : Str} (l : Str)
    (h : ∀ c ∈ ws, p c = true) :
    (ws ++ l).dropWhile p = l.dropWhile p := by
  induction ws with
  | nil => rfl
  | cons c ws ih =>
    have hc : p c = true := h c (List.mem_cons_self c ws)
    simp only [List.cons_append, List.dropWhile_cons, hc, if_pos]
    exact ih (fun d hd => h d (List.mem_cons_of_mem c hd))

/-- Dropping while `p` holds stops no later than the first element that
fails `p`. -/
theorem dropWhile_append_stop {p : Char → Bool} {y : Char}
    (hy : p y = false) (xs ys : Str) :
    (xs ++ y :: ys).dropWhile p = xs.dropWhile p ++ y :: ys := by
  induction xs with
  | nil => simp [List.dropWhile_cons, hy]
  | cons c xs ih =>
    by_cases hc : p c = true
    · simp only [List.cons_append, List.dropWhile_cons, hc, if_pos, ih]
    · have hc' : p c = false := by revert hc; cases p c <;> simp
      simp [List.dropWhile_cons, hc']

/-- Leading whitespace does not change the result of `trim`. -/
theorem trim_space_append {ws : Str} (l : Str)
    (h : ∀ c ∈ ws, isSpace c = true) : trim (ws ++ l) = trim l := by
  unfold trim
  rw [dropWhile_append_all l h]

/-- Trailing whitespace does not change the result of `trim`. -/
theorem trim_append_space {ws : Str} (l : Str)
    (h : ∀ c ∈ ws, isSpace c = true) : trim (l ++ ws) = trim l := by
  unfold trim
  by_cases hd : l.dropWhile isSpace = []
  · have hall : ∀ c ∈ l, isSpace c = true := List.dropWhile_eq_nil_iff.mp hd
    have h1 : (l ++ ws).dropWhile isSpace = [] := by
      rw [dropWhile_append_all ws hall]
      exact List.dropWhile_eq_nil_iff.mpr h
    rw [hd, h1]
  · obtain ⟨c, t, hct⟩ := List.exists_cons_of_ne_nil hd
    have hstep : (l ++ ws).dropWhile isSpace = l.dropWhile isSpace ++ ws := by
      have hc : isSpace c = false := by
        have h0 := List.head?_dropWhile_not isSpace l
        rw [hct] at h0
        simpa using h0
      calc (l ++ ws).dropWhile isSpace
          = ((l.takeWhile isSpace ++ l.dropWhile isSpace) ++ ws).dropWhile isSpace := by
            rw [List.takeWhile_append_dropWhile]
        _ = (l.takeWhile isSpace ++ (l.dropWhile isSpace ++ ws)).dropWhile isSpace := by
            rw [List.append_assoc]
        _ = (l.dropWhile isSpace ++ ws).dropWhile isSpace := by
            exact dropWhile_append_all _ (fun d hd' => List.mem_takeWhile_imp hd')
        _ = ((c :: t) ++ ws).dropWhile isSpace := by rw [hct]
        _ = c :: t ++ ws := by simp [List.dropWhile_cons, hc]
        _ = l.dropWhile isSpace ++ ws := by rw [hct]
    rw [hstep, List.reverse_append]
    rw [dropWhile_append_all _ (by intro d hd'; exact h d (List.mem_reverse.mp hd'))]

/-- Characters survive `dropWhile p` whenever they fail `p`. -/
theorem mem_dropWhile_of_not {p : Char → Bool} {c : Char}
    (hc : p c = false) : ∀ {l : Str}, c ∈ l → c ∈ l.dropWhile p := by
  intro l
  induction l with
  | nil => intro h; exact absurd h (List.not_mem_nil c)
  | cons d t ih =>
    intro hmem
    by_cases hd : p d = true
    · simp only [List.dropWhile_cons, hd, if_pos]
      rcases List.mem_cons.mp hmem with h | h
      · subst h; rw [hd] at hc; cases hc
      · exact ih h
    · have hd' : p d = false := by revert hd; cases p d <;> simp
      simp only [List.dropWhile_cons, hd']
      simpa using hmem

/-- A character that fails `p` and occurs in `l` occurs in the trim of
`l` by `p` on both sides. -/
theorem mem_trim_of_not {c : Char} (hc : isSpace c = false) {l : Str}
    (hmem : c ∈ l) : c ∈ trim l := by
  unfold trim
  rw [List.mem_reverse]
  exact mem_dropWhile_of_not hc (List.mem_reverse.mpr (mem_dropWhile_of_not hc hmem))

namespace Scraper

/-- `splitAtLastComma` returns `none` exactly on comma-free lists. -/
theorem splitAtLastComma_eq_none {l : Str} :
    splitAtLastComma l = none ↔ ',' ∉ l := by
  induction l with
  | nil => simp [splitAtLastComma]
  | cons c rest ih =>
    simp only [splitAtLastComma]
    cases hr : splitAtLastComma rest with
    | some p =>
      simp only []
      constructor
      · intro h; cases h
      · intro h
        have : ',' ∉ rest := fun hm => h (List.mem_cons_of_mem c hm)
        rw [ih.mpr this] at hr; cases hr
    | none =>
      have hrest : ',' ∉ rest := ih.mp hr
      by_cases hc : c = ','
      · subst hc; simp
      · simp [hc, List.mem_cons, Ne.symm hc, hrest]

/-- Soundness of `splitAtLastComma`: the two parts rebuild the list and
the second part is comma-free (the comma split on is the last one). -/
theorem splitAtLastComma_sound : ∀ {l a b : Str},
    splitAtLastComma l = some (a, b) → l = a ++ ',' :: b ∧ ',' ∉ b := by
  intro l
  induction l with
  | nil => intro a b h; cases h
  | cons c rest ih =>
    intro a b h
    simp only [splitAtLastComma] at h
    cases hr : splitAtLastComma rest with
    | some p =>
      rw [hr] at h
      simp only [Option.some.injEq, Prod.mk.injEq] at h
      obtain ⟨ha, hb⟩ := h
      obtain ⟨hrest, hnb⟩ := ih (a := p.1) (b := p.2) (by rw [hr])
      subst hb
      constructor
      · rw [← ha]; simp [hrest]
      · exact hnb
    | none =>
      rw [hr] at h
      by_cases hc : c = ','
      · rw [if_pos hc] at h
        simp only [Option.some.injEq, Prod.mk.injEq] at h
        refine ⟨?_, ?_⟩
        · rw [← h.1, ← h.2, hc]; rfl
        · rw [← h.2]; exact splitAtLastComma_eq_none.mp hr
      · rw [if_neg hc] at h; cases h

/-- Completeness of `splitAtLastComma`: a decomposition around a comma
with a comma-free tail is found exactly. -/
theorem splitAtLastComma_complete : ∀ (a : Str) {b : Str}, ',' ∉ b →
    splitAtLastComma (a ++ ',' :: b) = some (a, b) := by
  intro a
  induction a with
  | nil =>
    intro b hb
    simp [splitAtLastComma, splitAtLastComma_eq_none.mpr hb]
  | cons c a ih =>
    intro b hb
    rw [List.cons_append, splitAtLastComma.eq_def]
    simp only [ih hb]

end Scraper

/-- Members of the trim of a list are members of the list. -/
theorem mem_of_mem_trim {c : Char} {l : Str} (h : c ∈ trim l) : c ∈ l := by
  unfold trim at h
  rw [List.mem_reverse] at h
  have h1 := (List.dropWhile_sublist (l := (l.dropWhile isSpace).reverse)
    isSpace).mem h
  rw [List.mem_reverse] at h1
  exact (List.dropWhile_sublist isSpace).mem h1

/-- A comma is not whitespace. -/
theorem isSpace_comma : isSpace ',' = false := by decide

/-- The trim of a list decomposed around its last comma is the
decomposition around that comma of the parts with the outer whitespace
removed: the leading whitespace of the left part and the trailing
whitespace of the right part go away. -/
theorem trim_around_last_comma (a b : Str) :
    trim (a ++ ',' :: b) =
      a.dropWhile isSpace ++ ',' :: (b.reverse.dropWhile isSpace).reverse := by
  unfold trim
  rw [dropWhile_append_stop isSpace_comma]
  have h1 : (a.dropWhile isSpace ++ ',' :: b).reverse =
      b.reverse ++ ',' :: (a.dropWhile isSpace).reverse := by
    rw [List.reverse_append, List.reverse_cons, List.append_assoc]
    rfl
  rw [h1, dropWhile_append_stop isSpace_comma, List.reverse_append,
    List.reverse_cons, List.reverse_reverse, List.append_assoc]
  rfl

namespace Scraper

/-- C4: `split_city_country` of a string with at least one comma (a
decomposition `a ++ "," ++ b` where `b`, everything after the last
comma, is comma-free) yields the part before the last comma and the
part after it, each trimmed of surrounding whitespace; with no comma it
yields the whole trimmed string as city and the empty country. -/
theorem split_city_country_spec (val : Str) :
    (',' ∉ val → split_city_country val = (trim val, [])) ∧
    (∀ a b : Str, val = a ++ ',' :: b → ',' ∉ b →
      split_city_country val = (trim a, trim b)) := by
  constructor
  · intro h
    have hs : ',' ∉ trim val := fun hm => h (mem_of_mem_trim hm)
    simp only [split_city_country, splitAtLastComma_eq_none.mpr hs]
  · intro a b hval hb
    subst hval
    have hkey := trim_around_last_comma a b
    have hb1 : ',' ∉ (b.reverse.dropWhile isSpace).reverse := by
      intro hm
      rw [List.mem_reverse] at hm
      have := (List.dropWhile_sublist (l := b.reverse) isSpace).mem hm
      rw [List.mem_reverse] at this
      exact hb this
    simp only [split_city_country, hkey, splitAtLastComma_complete _ hb1]
    have hta : trim (a.dropWhile isSpace) = trim a := by
      conv_rhs => rw [← List.takeWhile_append_dropWhile (p := isSpace) (l := a)]
      rw [trim_space_append _ (fun c hc => List.mem_takeWhile_imp hc)]
    have htb : trim ((b.reverse.dropWhile isSpace).reverse) = trim b := by
      conv_rhs =>
        rw [← List.reverse_reverse b,
          ← List.takeWhile_append_dropWhile (p := isSpace) (l := b.reverse),
          List.reverse_append]
      rw [trim_append_space _ ?_]
      · intro c hc
        rw [List.mem_reverse] at hc
        exact List.mem_takeWhile_imp hc
    rw [hta, htb]

end Scraper

/-- No element of `l` satisfying `p` means dropping does nothing. -/
theorem dropWhile_eq_self_of_none {p : Char → Bool} {l : Str}
    (h : ∀ c ∈ l, p c = false) : l.dropWhile p = l := by
  cases l with
  | nil => rfl
  | cons c rest => simp [List.dropWhile_cons, h c (List.mem_cons_self c rest)]

/-- Members of a drop-from-both-ends are members of the original. -/
theorem mem_of_mem_dropBoth {p q : Char → Bool} {c : Char} {l : Str}
    (h : c ∈ ((l.dropWhile p).reverse.dropWhile q).reverse) : c ∈ l := by
  rw [List.mem_reverse] at h
  have h1 := (List.dropWhile_sublist (l := (l.dropWhile p).reverse) q).mem h
  rw [List.mem_reverse] at h1
  exact (List.dropWhile_sublist p).mem h1

namespace Scraper

/-- Adjacent output characters of the normalizer are never both
underscores (underscore runs were collapsed). -/
def Ok2 (a b : Char) : Prop := ¬(a = '_' ∧ b = '_')

/-- Every character `subNonAlnum` emits is lowercase alphanumeric or an
underscore. -/
theorem subNonAlnum_chars : ∀ (l : Str), ∀ c ∈ subNonAlnum l,
    isAlnumLower c = true ∨ c = '_'
  | [] => by intro c hc; simp [subNonAlnum] at hc
  | [d] => by
    intro c hc
    simp only [subNonAlnum] at hc
    by_cases hd : isAlnumLower d = true
    · rw [if_pos hd] at hc
      simp only [List.mem_singleton] at hc
      subst hc; exact Or.inl hd
    · rw [if_neg hd] at hc
      simp only [List.mem_singleton] at hc
      subst hc; exact Or.inr rfl
  | a :: d :: rest => by
    intro c hc
    simp only [subNonAlnum] at hc
    by_cases ha : isAlnumLower a = true
    · rw [if_pos ha] at hc
      rcases List.mem_cons.mp hc with h | h
      · subst h; exact Or.inl ha
      · exact subNonAlnum_chars (d :: rest) c h
    · rw [if_neg ha] at hc
      by_cases hd : isAlnumLower d = true
      · rw [if_pos hd] at hc
        rcases List.mem_cons.mp hc with h | h
        · subst h; exact Or.inr rfl
        · exact subNonAlnum_chars (d :: rest) c h
      · rw [if_neg hd] at hc
        exact subNonAlnum_chars (d :: rest) c hc

/-- The head of `subNonAlnum` on a nonempty list: the first character
if alphanumeric, an underscore otherwise. -/
theorem subNonAlnum_head : ∀ (d : Char) (rest : Str),
    (subNonAlnum (d :: rest)).head? =
      some (if isAlnumLower d then d else '_')
  | d, [] => by
    by_cases hd : isAlnumLower d = true <;> simp [subNonAlnum, hd]
  | d, e :: rest => by
    by_cases hd : isAlnumLower d = true
    · simp [subNonAlnum, hd]
    · by_cases he : isAlnumLower e = true
      · simp [subNonAlnum, hd, he]
      · have ih := subNonAlnum_head e rest
        simp only [subNonAlnum, if_neg hd, if_neg he]
        rw [ih, if_neg he]

/-- `subNonAlnum` never emits two adjacent underscores. -/
theorem subNonAlnum_chain : ∀ (l : Str), List.Chain' Ok2 (subNonAlnum l)
  | [] => by simp [subNonAlnum]
  | [d] => by
    by_cases hd : isAlnumLower d = true <;>
      simp [subNonAlnum, hd, List.chain'_singleton]
  | a :: d :: rest => by
    have ih := subNonAlnum_chain (d :: rest)
    have husAl : isAlnumLower '_' = false := by decide
    by_cases ha : isAlnumLower a = true
    · simp only [subNonAlnum, if_pos ha]
      refine List.chain'_cons'.mpr ⟨?_, ih⟩
      intro y _ hcon
      rw [hcon.1] at ha
      rw [husAl] at ha; cases ha
    · by_cases hd : isAlnumLower d = true
      · simp only [subNonAlnum, if_neg ha, if_pos hd]
        refine List.chain'_cons'.mpr ⟨?_, ih⟩
        intro y hy hcon
        rw [subNonAlnum_head d rest, if_pos hd] at hy
        simp only [Option.mem_def, Option.some.injEq] at hy
        subst hy
        rw [hcon.2] at hd
        rw [husAl] at hd; cases hd
      · simp only [subNonAlnum, if_neg ha, if_neg hd]
        exact ih

/-- A list of alphanumeric-or-underscore characters with no two
adjacent underscores and no trailing underscore is a fixed point of
`subNonAlnum`. -/
theorem subNonAlnum_fixed : ∀ (l : Str),
    (∀ c ∈ l, isAlnumLower c = true ∨ c = '_') →
    List.Chain' Ok2 l → l.getLast? ≠ some '_' →
    subNonAlnum l = l
  | [] => by intros; rfl
  | [d] => by
    intro hchars _ hlast
    have hd : isAlnumLower d = true := by
      rcases hchars d (List.mem_singleton.mpr rfl) with h | h
      · exact h
      · subst h; simp at hlast
    simp [subNonAlnum, hd]
  | a :: d :: rest => by
    intro hchars hchain hlast
    have htail : subNonAlnum (d :: rest) = d :: rest :=
      subNonAlnum_fixed (d :: rest)
        (fun c hc => hchars c (List.mem_cons_of_mem a hc))
        (List.chain'_cons'.mp hchain).2
        (by rwa [List.getLast?_cons_cons] at hlast)
    by_cases ha : isAlnumLower a = true
    · simp only [subNonAlnum, if_pos ha, htail]
    · have ha' : a = '_' := by
        rcases hchars a (List.mem_cons_self a _) with h | h
        · rw [h] at ha; cases ha rfl
        · exact h
      have hd' : d ≠ '_' := by
        have hhead := (List.chain'_cons'.mp hchain).1 d (by simp)
        intro hdeq
        exact hhead ⟨ha', hdeq⟩
      have hd : isAlnumLower d = true := by
        rcases hchars d (List.mem_cons_of_mem a (List.mem_cons_self d _))
          with h | h
        · exact h
        · exact absurd h hd'
      simp only [subNonAlnum, if_neg ha, if_pos hd, htail]
      rw [ha']

end Scraper

namespace Scraper

/-- Normal forms of the header normalizer: only lowercase alphanumerics
and underscores, no two adjacent underscores, and no underscore at
either end. -/
def IsNF (l : Str) : Prop :=
  (∀ c ∈ l, isAlnumLower c = true ∨ c = '_') ∧
  List.Chain' Ok2 l ∧
  l.head? ≠ some '_' ∧ l.getLast? ≠ some '_'

/-- Characters the normalizer emits are not whitespace. -/
theorem nf_char_not_space {c : Char}
    (h : isAlnumLower c = true ∨ c = '_') : isSpace c = false := by
  rcases h with h | h
  · simp only [isAlnumLower, Bool.or_eq_true, Bool.and_eq_true,
      decide_eq_true_eq] at h
    simp only [isSpace, Bool.or_eq_false_iff, decide_eq_false_iff_not]
    omega
  · subst h; decide

/-- Characters the normalizer emits are already lowercase. -/
theorem nf_char_lower_fixed {c : Char}
    (h : isAlnumLower c = true ∨ c = '_') : pyLower c = c := by
  rcases h with h | h
  · simp only [isAlnumLower, Bool.or_eq_true, Bool.and_eq_true,
      decide_eq_true_eq] at h
    unfold pyLower
    rw [if_neg]
    intro hc
    omega
  · subst h; decide

/-- A list whose head and last are not `t` is a fixed point of
`stripChar t`. -/
theorem stripChar_fixed {t : Char} {l : Str}
    (hh : l.head? ≠ some t) (hl : l.getLast? ≠ some t) :
    stripChar t l = l := by
  unfold stripChar
  have h1 : l.dropWhile (· == t) = l := by
    cases l with
    | nil => rfl
    | cons c rest =>
      have hc : (c == t) = false := by
        simp only [List.head?_cons, ne_eq, Option.some.injEq] at hh
        simp [hh]
      simp [List.dropWhile_cons, hc]
  rw [h1]
  have h2 : l.reverse.dropWhile (· == t) = l.reverse := by
    cases hrev : l.reverse with
    | nil => rfl
    | cons c rest =>
      have hc0 : l.getLast? = some c := by
        rw [← List.head?_reverse, hrev]; rfl
      have hc : (c == t) = false := by
        simp only [beq_eq_false_iff_ne, ne_eq]
        intro hct
        rw [hct] at hc0
        exact hl hc0
      simp [List.dropWhile_cons, hc]
  rw [h2, List.reverse_reverse]

/-- Dropping a prefix does not change the last element of a nonempty
remainder. -/
theorem getLast?_dropWhile_of_ne_nil {p : Char → Bool} {w : Str}
    (h : w.dropWhile p ≠ []) : (w.dropWhile p).getLast? = w.getLast? := by
  obtain ⟨pre, hpre⟩ := List.dropWhile_suffix (l := w) p
  conv_rhs => rw [← hpre]
  rw [List.getLast?_append]
  cases hdw : w.dropWhile p with
  | nil => exact absurd hdw h
  | cons c u =>
    have hs : (c :: u).getLast?.isSome = true := by
      rw [List.getLast?_isSome]; simp
    rw [Option.or_of_isSome hs]

/-- The ends of `stripChar t l` are never `t`. -/
theorem stripChar_ends (t : Char) (l : Str) :
    (stripChar t l).head? ≠ some t ∧ (stripChar t l).getLast? ≠ some t := by
  unfold stripChar
  cases hv : (l.dropWhile (· == t)).reverse.dropWhile (· == t) with
  | nil => simp
  | cons c v' =>
    have hcne : (c == t) = false := by
      have hc := List.head?_dropWhile_not (· == t)
        ((l.dropWhile (· == t)).reverse)
      rw [hv] at hc
      simpa using hc
    constructor
    · rw [List.head?_reverse, ← hv,
        getLast?_dropWhile_of_ne_nil (by rw [hv]; simp),
        List.getLast?_reverse]
      cases hu : l.dropWhile (· == t) with
      | nil => simp
      | cons c0 u' =>
        have hc0 : (c0 == t) = false := by
          have h0 := List.head?_dropWhile_not (· == t) l
          rw [hu] at h0
          simpa using h0
        simp only [List.head?_cons, ne_eq, Option.some.injEq]
        intro hct
        rw [hct] at hc0
        simp at hc0
    · rw [List.getLast?_reverse]
      simp only [List.head?_cons, ne_eq, Option.some.injEq]
      intro hct
      rw [hct] at hcne
      simp at hcne

end Scraper

/-- A list with no whitespace characters is a fixed point of `trim`. -/
theorem trim_fixed {l : Str} (h : ∀ c ∈ l, isSpace c = false) :
    trim l = l := by
  unfold trim
  rw [dropWhile_eq_self_of_none h,
    dropWhile_eq_self_of_none (fun c hc => h c (List.mem_reverse.mp hc)),
    List.reverse_reverse]

namespace Scraper

/-- Members of `stripChar t l` are members of `l`. -/
theorem mem_of_mem_stripChar {t c : Char} {l : Str}
    (h : c ∈ stripChar t l) : c ∈ l := by
  unfold stripChar at h
  exact mem_of_mem_dropBoth h

/-- A chain condition survives dropping a prefix. -/
theorem chain'_dropWhile {R : Char → Char → Prop} {p : Char → Bool}
    {l : Str} (h : List.Chain' R l) : List.Chain' R (l.dropWhile p) := by
  obtain ⟨pre, hpre⟩ := List.dropWhile_suffix (l := l) p
  rw [← hpre] at h
  exact (List.chain'_append.mp h).2.1

/-- The no-adjacent-underscores condition is symmetric, so it survives
reversal. -/
theorem chain'_ok2_reverse {l : Str} (h : List.Chain' Ok2 l) :
    List.Chain' Ok2 l.reverse := by
  rw [List.chain'_reverse]
  exact h.imp (fun a b hab => fun hcon => hab ⟨hcon.2, hcon.1⟩)

/-- The no-adjacent-underscores condition survives `stripChar`. -/
theorem chain'_stripChar {t : Char} {l : Str} (h : List.Chain' Ok2 l) :
    List.Chain' Ok2 (stripChar t l) := by
  unfold stripChar
  exact chain'_ok2_reverse (chain'_dropWhile (chain'_ok2_reverse
    (chain'_dropWhile h)))

/-- Every output of the header normalizer is in normal form. -/
theorem normalize_isNF (l : Str) : IsNF (normalize l) := by
  unfold normalize IsNF
  refine ⟨?_, ?_, ?_, ?_⟩
  · intro c hc
    exact subNonAlnum_chars _ c (mem_of_mem_stripChar hc)
  · exact chain'_stripChar (subNonAlnum_chain _)
  · exact (stripChar_ends '_' _).1
  · exact (stripChar_ends '_' _).2

/-- Normal forms are fixed points of the header normalizer. -/
theorem nf_fixed {l : Str} (h : IsNF l) : normalize l = l := by
  obtain ⟨hchars, hchain, hhead, hlast⟩ := h
  unfold normalize
  rw [trim_fixed (fun c hc => nf_char_not_space (hchars c hc))]
  rw [List.map_congr_left (fun c hc => nf_char_lower_fixed (hchars c hc)),
    List.map_id']
  rw [subNonAlnum_fixed l hchars hchain hlast]
  exact stripChar_fixed hhead hlast

/-- C5: the header normalizer is idempotent; normalizing a raw column
label twice gives the same identifier as normalizing it once. -/
theorem normalize_idempotent (name : Str) :
    normalize (normalize name) = normalize name :=
  nf_fixed (normalize_isNF name)

end Scraper

namespace Scraper

/-- Python substring containment `needle in hay`. -/
def hasSub (needle : Str) : Str → Bool
  | [] => needle.isEmpty
  | c :: rest => needle.isPrefixOf (c :: rest) || hasSub needle rest

/-- A pandas DataFrame of string cells: a row count and named columns
in order.  Cells are strings because the scraper builds the frame from
extracted cell text. -/
structure SFrame where
  nrows : Nat
  cols : List (Str × List Str)
deriving DecidableEq

/-- Reading a column by name (`df[col]`): the first column with that
name. -/
def lookupCol (n : Str) (f : SFrame) : Option (List Str) :=
  (f.cols.find? (fun c => c.1 == n)).map Prod.snd

/-- Column assignment `df[col] = vals`: overwrite the column if the
name exists, else append a new column on the right. -/
def setCol (n : Str) (vals : List Str) (f : SFrame) : SFrame :=
  if (f.cols.find? (fun c => c.1 == n)).isSome then
    ⟨f.nrows, f.cols.map (fun c => if c.1 == n then (n, vals) else c)⟩
  else ⟨f.nrows, f.cols ++ [(n, vals)]⟩

/-- `df.drop(columns=[n])`. -/
def dropCol (n : Str) (f : SFrame) : SFrame :=
  ⟨f.nrows, f.cols.filter (fun c => !(c.1 == n))⟩

/-- `pd.DataFrame(clean_rows, columns=headers)` over the aligned rows
of `scraper.scrape_dataset`: column `j` holds cell `j` of every aligned
row. -/
def mkFrame (headers : List Str) (rows : List (List Str)) : SFrame :=
  let aligned := rows.map (alignRow headers.length)
  ⟨rows.length,
   headers.enum.map (fun p => (p.2, aligned.map (fun r => r.getD p.1 [])))⟩

/-- The city/country split of `scraper.scrape_dataset`: find the first
column whose name contains "city", split its values on the last comma
into new `city` and `country` columns, and drop the original column
when its name is neither `city` nor `country`. -/
def citySplit (f : SFrame) : SFrame :=
  match f.cols.find? (fun c => hasSub ("city".toList) c.1) with
  | none => f
  | some c =>
    let pairs := c.2.map split_city_country
    let f1 := setCol ("city".toList) (pairs.map Prod.fst) f
    let f2 := setCol ("country".toList) (pairs.map Prod.snd) f1
    if c.1 ≠ ("city".toList) ∧ c.1 ≠ ("country".toList) then
      dropCol c.1 f2
    else f2

/-- `df["year"] = year`: a scalar broadcast to every row. -/
def withYear (year : Str) (f : SFrame) : SFrame :=
  setCol ("year".toList) (List.replicate f.nrows year) f

/-- The replacement dictionary of
`df.replace({"N/A": "", "-": "", "n/a": ""}, inplace=True)`. -/
def sentinelPairs : List (Str × Str) :=
  [("N/A".toList, []), ("-".toList, []), ("n/a".toList, [])]

/-- One cell under a pandas `replace` dictionary: a whole-cell match
against a key is replaced by its value, anything else is kept. -/
def replaceVal (m : List (Str × Str)) (v : Str) : Str :=
  match m.find? (fun p => p.1 == v) with
  | some p => p.2
  | none => v

/-- The sentinel-cleaning step applied to every cell of the frame. -/
def cleanFrame (f : SFrame) : SFrame :=
  ⟨f.nrows, f.cols.map (fun c => (c.1, c.2.map (replaceVal sentinelPairs)))⟩

/-- One `th` element of the rendered header row: its visible text and
its `aria-label` attribute. -/
structure HeaderCell where
  text : Str
  ariaLabel : Option Str
deriving DecidableEq

/-- `scraper.scrape_headers`: normalize each header's stripped text,
falling back to the `aria-label` attribute or `"col"` when the text is
empty. -/
def scrape_headers (ths : List HeaderCell) : List Str :=
  ths.map (fun th =>
    let t := trim th.text
    if t.isEmpty then
      normalize (match th.ariaLabel with
        | some a => if a.isEmpty then ("col".toList) else a
        | none => ("col".toList))
    else normalize t)

/-- What one rendered ranking page delivers to the harvester: the
header cells when the header row rendered within the bounded wait
(`none` models the header timeout), and the extracted raw rows. -/
structure Page where
  headerCells : Option (List HeaderCell)
  rows : List (List Str)
deriving DecidableEq

/-- `scraper.scrape_dataset` as a function of the rendered page: `none`
on header timeout or when no rows were extracted, otherwise the cleaned
frame (align, split city, attach year, replace sentinels). -/
def scrape_dataset (page : Page) (year : Str) : Option SFrame :=
  match page.headerCells with
  | none => none
  | some ths =>
    let headers := scrape_headers ths
    if page.rows.isEmpty then none
    else some (cleanFrame (withYear year (citySplit (mkFrame headers page.rows))))

/-- The frame `scrape_dataset` builds just before the sentinel-cleaning
step (the state of `df` at the `df.replace` line). -/
def preCleanFrame (page : Page) (year : Str) : SFrame :=
  match page.headerCells with
  | none => ⟨0, []⟩
  | some ths => withYear year (citySplit (mkFrame (scrape_headers ths) page.rows))

end Scraper

namespace Scraper

/-- Named-column search after an overwrite of column `n`: the overwrite
is what the search finds whenever it would have found anything. -/
theorem find?_map_set (n : Str) (vals : List Str) :
    ∀ (cols : List (Str × List Str)),
    (cols.find? (fun c => c.1 == n)).isSome = true →
    (cols.map (fun c => if c.1 == n then (n, vals) else c)).find?
      (fun c => c.1 == n) = some (n, vals)
  | [] => by intro h; simp [List.find?] at h
  | c :: rest => by
    intro h
    by_cases hc : (c.1 == n) = true
    · simp [List.find?, hc]
    · have hc' : (c.1 == n) = false := by
        revert hc; cases (c.1 == n) <;> simp
      rw [List.find?_cons_of_neg _ (by simp [hc'])] at h
      simp only [List.map_cons, hc', Bool.false_eq_true, if_false]
      rw [List.find?.eq_def]
      simp only [hc', Bool.false_eq_true]
      exact find?_map_set n vals rest h

/-- Named-column search after an overwrite of a different column `m` is
unchanged. -/
theorem find?_map_set_other {n m : Str} (hne : n ≠ m) (vals : List Str) :
    ∀ (cols : List (Str × List Str)),
    (cols.map (fun c => if c.1 == m then (m, vals) else c)).find?
      (fun c => c.1 == n) = cols.find? (fun c => c.1 == n)
  | [] => rfl
  | c :: rest => by
    have hmn : (m == n) = false := by
      simp only [beq_eq_false_iff_ne, ne_eq]
      exact fun h => hne h.symm
    by_cases hc : (c.1 == m) = true
    · have hc1 : c.1 = m := by simpa using hc
      have hcn : (c.1 == n) = false := by rw [hc1]; exact hmn
      simp only [List.map_cons, hc, if_true]
      rw [List.find?.eq_def]
      conv_rhs => rw [List.find?.eq_def]
      simp only [hmn, hcn, Bool.false_eq_true]
      exact find?_map_set_other hne vals rest
    · have hc' : (c.1 == m) = false := by
        revert hc; cases (c.1 == m) <;> simp
      simp only [List.map_cons, hc', Bool.false_eq_true, if_false]
      rw [List.find?.eq_def]
      conv_rhs => rw [List.find?.eq_def]
      cases hcn : (c.1 == n) with
      | true => simp [hcn]
      | false =>
        simp only [hcn, Bool.false_eq_true]
        exact find?_map_set_other hne vals rest

/-- Named-column search after filtering out a different name `m` is
unchanged. -/
theorem find?_filter_other {n m : Str} (hne : n ≠ m) :
    ∀ (cols : List (Str × List Str)),
    (cols.filter (fun c => !(c.1 == m))).find? (fun c => c.1 == n) =
      cols.find? (fun c => c.1 == n)
  | [] => rfl
  | c :: rest => by
    by_cases hc : (c.1 == m) = true
    · have hc1 : c.1 = m := by simpa using hc
      have hcn : (c.1 == n) = false := by
        rw [hc1]
        simp only [beq_eq_false_iff_ne, ne_eq]
        exact fun h => hne h.symm
      rw [List.filter_cons_of_neg (by simp [hc])]
      conv_rhs => rw [List.find?.eq_def]
      simp only [hcn, Bool.false_eq_true]
      exact find?_filter_other hne rest
    · have hc' : (c.1 == m) = false := by
        revert hc; cases (c.1 == m) <;> simp
      rw [List.filter_cons_of_pos (by simp [hc'])]
      rw [List.find?.eq_def]
      conv_rhs => rw [List.find?.eq_def]
      cases hcn : (c.1 == n) with
      | true => simp [hcn]
      | false =>
        simp only [hcn, Bool.false_eq_true]
        exact find?_filter_other hne rest

/-- Named-column search through a value-only transformation of every
column finds the transformed version of the same column. -/
theorem find?_map_vals (n : Str) (g : List Str → List Str) :
    ∀ (cols : List (Str × List Str)),
    (cols.map (fun c => (c.1, g c.2))).find? (fun c => c.1 == n) =
      (cols.find? (fun c => c.1 == n)).map (fun c => (c.1, g c.2))
  | [] => rfl
  | c :: rest => by
    simp only [List.map_cons]
    rw [List.find?.eq_def]
    conv_rhs => rw [List.find?.eq_def]
    cases hcn : (c.1 == n) with
    | true => simp [hcn]
    | false =>
      simp only [hcn, Bool.false_eq_true]
      exact find?_map_vals n g rest

/-- Overwriting column `n` makes `lookupCol n` read the new values. -/
theorem lookupCol_setCol_self (n : Str) (vals : List Str) (f : SFrame) :
    lookupCol n (setCol n vals f) = some vals := by
  unfold setCol
  by_cases hex : (f.cols.find? (fun c => c.1 == n)).isSome
  · rw [if_pos hex]
    unfold lookupCol
    rw [find?_map_set n vals f.cols hex]
    rfl
  · rw [if_neg hex]
    unfold lookupCol
    have hnone : f.cols.find? (fun c => c.1 == n) = none := by
      revert hex; cases f.cols.find? (fun c => c.1 == n) <;> simp
    simp [List.find?_append, hnone, List.find?]

/-- Writing a differently named column does not change `lookupCol n`. -/
theorem lookupCol_setCol_other {n m : Str} (hne : n ≠ m)
    (vals : List Str) (f : SFrame) :
    lookupCol n (setCol m vals f) = lookupCol n f := by
  unfold setCol
  by_cases hex : (f.cols.find? (fun c => c.1 == m)).isSome
  · rw [if_pos hex]
    unfold lookupCol
    rw [find?_map_set_other hne vals f.cols]
  · rw [if_neg hex]
    unfold lookupCol
    have hmn : (m == n) = false := by
      simp only [beq_eq_false_iff_ne, ne_eq]
      exact fun h => hne h.symm
    simp [List.find?_append, List.find?, hmn]

/-- Dropping a differently named column does not change `lookupCol n`. -/
theorem lookupCol_dropCol_other {n m : Str} (hne : n ≠ m) (f : SFrame) :
    lookupCol n (dropCol m f) = lookupCol n f := by
  unfold dropCol lookupCol
  rw [find?_filter_other hne f.cols]

/-- Cleaning maps each column's values, found by name as before. -/
theorem lookupCol_cleanFrame (n : Str) (f : SFrame) :
    lookupCol n (cleanFrame f) =
      (lookupCol n f).map (List.map (replaceVal sentinelPairs)) := by
  unfold cleanFrame lookupCol
  rw [find?_map_vals n (List.map (replaceVal sentinelPairs)) f.cols]
  cases f.cols.find? (fun c => c.1 == n) <;> rfl

end Scraper

namespace Scraper

/-- Overwriting or appending a column does not change the row count. -/
theorem setCol_nrows (n : Str) (vals : List Str) (f : SFrame) :
    (setCol n vals f).nrows = f.nrows := by
  unfold setCol; split <;> rfl

/-- Dropping a column does not change the row count. -/
theorem dropCol_nrows (n : Str) (f : SFrame) :
    (dropCol n f).nrows = f.nrows := rfl

/-- Cleaning does not change the row count. -/
theorem cleanFrame_nrows (f : SFrame) :
    (cleanFrame f).nrows = f.nrows := rfl

/-- The city/country split does not change the row count. -/
theorem citySplit_nrows (f : SFrame) : (citySplit f).nrows = f.nrows := by
  unfold citySplit
  cases f.cols.find? (fun c => hasSub ("city".toList) c.1) with
  | none => rfl
  | some c =>
    simp only []
    split
    · rw [dropCol_nrows, setCol_nrows, setCol_nrows]
    · rw [setCol_nrows, setCol_nrows]

/-- Taking first components after pairing each element's second
component with anything recovers the second components. -/
theorem map_fst_map_pair {α β γ : Type} (l : List (α × β))
    (g : α × β → γ) :
    (l.map (fun p => (p.2, g p))).map Prod.fst = l.map Prod.snd := by
  induction l with
  | nil => rfl
  | cons p t ih => simp [ih]

/-- The column names of a freshly built frame are exactly the headers. -/
theorem mkFrame_colNames (headers : List Str) (rows : List (List Str)) :
    (mkFrame headers rows).cols.map Prod.fst = headers := by
  unfold mkFrame
  simp only []
  rw [map_fst_map_pair, List.enum_map_snd]

/-- C2 (amended): the sentinel-cleaning step replaces a cell when and
only when it is exactly one of the tokens `"N/A"`, `"-"`, `"n/a"`,
turning it into the empty string and leaving every other cell value
unchanged; and every batch `scrape_dataset` emits has passed through
this cleaning step before being written. -/
theorem sentinel_clean_spec :
    (∀ v : Str, replaceVal sentinelPairs v =
      if v = ("N/A".toList) ∨ v = ("-".toList) ∨ v = ("n/a".toList) then
        ([] : Str)
      else v) ∧
    (∀ (page : Page) (year : Str) (f : SFrame),
      scrape_dataset page year = some f →
      f = cleanFrame (preCleanFrame page year)) := by
  constructor
  · intro v
    by_cases h1 : v = ("N/A".toList)
    · subst h1; decide
    · by_cases h2 : v = ("-".toList)
      · subst h2; decide
      · by_cases h3 : v = ("n/a".toList)
        · subst h3; decide
        · rw [if_neg (by tauto)]
          have hfind : sentinelPairs.find? (fun p => p.1 == v) = none := by
            rw [List.find?_eq_none]
            intro x hx
            simp only [sentinelPairs, List.mem_cons,
              List.not_mem_nil, or_false] at hx
            rcases hx with h | h | h <;> subst h <;>
              simp only [beq_iff_eq]
            · exact fun hh => h1 hh.symm
            · exact fun hh => h2 hh.symm
            · exact fun hh => h3 hh.symm
          unfold replaceVal
          rw [hfind]
  · intro page year f hsome
    unfold scrape_dataset at hsome
    unfold preCleanFrame
    cases hth : page.headerCells with
    | none => rw [hth] at hsome; cases hsome
    | some ths =>
      rw [hth] at hsome
      simp only [] at hsome
      by_cases hr : page.rows.isEmpty
      · rw [if_pos hr] at hsome; cases hsome
      · rw [if_neg hr] at hsome
        exact (Option.some.injEq _ _ ▸ hsome).symm

end Scraper

namespace Scraper

/-- C3 (amended): every batch `scrape_dataset` emits carries a `year`
column populated in every row with the (cleaned) year tag; a `city`
column is present whenever some normalized header contains `"city"` as
a substring, but not necessarily otherwise. -/
theorem scrape_dataset_city_year (page : Page) (year : Str)
    (f : SFrame) (ths : List HeaderCell)
    (hths : page.headerCells = some ths)
    (hsome : scrape_dataset page year = some f) :
    lookupCol ("year".toList) f =
      some (List.replicate f.nrows (replaceVal sentinelPairs year)) ∧
    ((scrape_headers ths).any (fun h => hasSub ("city".toList) h) = true →
      (lookupCol ("city".toList) f).isSome = true) := by
  unfold scrape_dataset at hsome
  rw [hths] at hsome
  simp only [] at hsome
  by_cases hr : page.rows.isEmpty
  · rw [if_pos hr] at hsome; cases hsome
  · rw [if_neg hr] at hsome
    have hf : f = cleanFrame (withYear year
        (citySplit (mkFrame (scrape_headers ths) page.rows))) :=
      (Option.some.injEq _ _ ▸ hsome).symm
    subst hf
    constructor
    · rw [lookupCol_cleanFrame]
      unfold withYear
      rw [lookupCol_setCol_self, cleanFrame_nrows, setCol_nrows]
      simp [List.map_replicate]
    · intro hany
      rw [lookupCol_cleanFrame, Option.isSome_map']
      unfold withYear
      rw [lookupCol_setCol_other (by decide)]
      have hex : ((mkFrame (scrape_headers ths) page.rows).cols.find?
          (fun c => hasSub ("city".toList) c.1)).isSome = true := by
        rw [List.find?_isSome]
        rw [List.any_eq_true] at hany
        obtain ⟨h0, hmem, hp⟩ := hany
        have hmem2 : h0 ∈ (mkFrame (scrape_headers ths)
            page.rows).cols.map Prod.fst := by
          rw [mkFrame_colNames]; exact hmem
        obtain ⟨c, hcmem, hceq⟩ := List.mem_map.mp hmem2
        exact ⟨c, hcmem, by rw [hceq]; exact hp⟩
      unfold citySplit
      cases hfind : (mkFrame (scrape_headers ths) page.rows).cols.find?
          (fun c => hasSub ("city".toList) c.1) with
      | none => rw [hfind] at hex; simp at hex
      | some c =>
        simp only []
        split
        · rename_i hcond
          rw [lookupCol_dropCol_other (fun h => hcond.1 h.symm)]
          rw [lookupCol_setCol_other (by decide)]
          rw [lookupCol_setCol_self]
          rfl
        · rw [lookupCol_setCol_other (by decide)]
          rw [lookupCol_setCol_self]
          rfl

end Scraper

namespace Scraper

/-- C2 is refuted as stated: the cell `"N/a"`, a case-insensitive
variant of the sentinel `"N/A"`, survives cleaning unchanged in the
emitted batch instead of becoming the empty string. -/
theorem sentinel_case_variant_cex :
    (scrape_dataset ⟨some [⟨("Score".toList), none⟩], [[("N/a".toList)]]⟩
        ("2023".toList)).bind (lookupCol ("score".toList)) =
      some [("N/a".toList)] ∧
    ("N/a".toList).map pyLower = ("N/A".toList).map pyLower ∧
    ("N/a".toList) ≠ ([] : Str) := by decide

/-- C3 is refuted as stated: a batch built from headers without any
"city"-containing label is emitted with no `city` field at all. -/
theorem city_presence_cex :
    ((scrape_dataset ⟨some [⟨("Rank".toList), none⟩], [[("1".toList)]]⟩
        ("2023".toList)).bind (lookupCol ("city".toList))) = none ∧
    (scrape_dataset ⟨some [⟨("Rank".toList), none⟩], [[("1".toList)]]⟩
        ("2023".toList)).isSome = true := by decide

/-- Concrete instantiation of the amended C3 theorem: with a `City`
header present, the emitted batch has a `city` column. -/
theorem scrape_dataset_city_year_witness :
    (lookupCol ("city".toList) (cleanFrame (preCleanFrame
      ⟨some [⟨("City".toList), none⟩], [[("Oslo, Norway".toList)]]⟩
      ("2023".toList)))).isSome = true :=
  (scrape_dataset_city_year
    ⟨some [⟨("City".toList), none⟩], [[("Oslo, Norway".toList)]]⟩
    ("2023".toList)
    (cleanFrame (preCleanFrame
      ⟨some [⟨("City".toList), none⟩], [[("Oslo, Norway".toList)]]⟩
      ("2023".toList)))
    [⟨("City".toList), none⟩] (by decide) (by decide)).2 (by decide)

end Scraper

namespace Scraper

/-- The dataset-to-slug map `DATASETS` of `scraper.py`, in insertion
order. -/
def DATASETS : List (Str × Str) :=
  [(("cost_of_living".toList), ("cost-of-living".toList)),
   (("quality_of_life".toList), ("quality-of-life".toList)),
   (("crime".toList), ("crime".toList)),
   (("property_prices".toList), ("property-investment".toList))]

/-- The year list `YEARS` of `scraper.py`. -/
def YEARS : List Str :=
  [("current".toList), ("2023".toList), ("2024".toList), ("2025".toList)]

/-- `scraper.BASE_URL`. -/
def BASE_URL : Str := ("https://www.numbeo.com".toList)

/-- `scraper.build_url`. -/
def build_url (slug : Str) (year : Str) : Str :=
  if year = ("current".toList) then
    BASE_URL ++ ('/' :: slug) ++ ("/rankings_current.jsp".toList)
  else
    BASE_URL ++ ('/' :: slug) ++ ("/rankings.jsp?title=".toList) ++ year

/-- The (dataset key, year) units of the campaign in the fixed nested
loop order of `scraper.main`. -/
def allUnits : List (Str × Str) :=
  DATASETS.flatMap (fun d => YEARS.map (fun y => (d.1, y)))

/-- `label = "current" if year == "current" else year` in
`scraper.main` (the identity, kept as written). -/
def fileLabel (year : Str) : Str :=
  if year = ("current".toList) then ("current".toList) else year

/-- `filename = f"{DATA_DIR}/{dataset_key}_{label}.csv"`. -/
def fileOf (key year : Str) : Str :=
  ("data/".toList) ++ key ++ ('_' :: fileLabel year) ++ (".csv".toList)

/-- pandas `df.empty`: true when the frame has no rows or no columns. -/
def frameEmpty (f : SFrame) : Bool := f.nrows == 0 || f.cols.isEmpty

/-- The body of the campaign loop for one unit: the written
`(filename, row count)` when the scrape returned a nonempty frame,
nothing otherwise (the `[SKIP]` branch). -/
def unitOutput (pages : Str → Str → Page) (u : Str × Str) :
    Option (Str × Nat) :=
  match scrape_dataset (pages u.1 u.2) u.2 with
  | some df => if !(frameEmpty df) then some (fileOf u.1 u.2, df.nrows)
               else none
  | none => none

/-- The campaign loop over a given unit list: every unit is attempted
in order and the successful outputs are collected. -/
def runCampaignOver (units : List (Str × Str))
    (pages : Str → Str → Page) : List (Str × Nat) :=
  units.filterMap (unitOutput pages)

/-- `scraper.main`'s full campaign over the fixed dataset-year matrix. -/
def runCampaign (pages : Str → Str → Page) : List (Str × Nat) :=
  runCampaignOver allUnits pages

/-- `scraper.main` as a function of the pages the browser session
renders: the files written with their row counts, and the process exit
code.  `main` only prints its summary and returns, so the exit code is
0 on every path that completes the loop. -/
def mainScraper (pages : Str → Str → Page) : List (Str × Nat) × Nat :=
  (runCampaign pages, 0)

/-- Whether a unit contributes an output artifact. -/
def unitSuccess (pages : Str → Str → Page) (u : Str × Str) : Bool :=
  (unitOutput pages u).isSome

/-- A unit whose page has no headers or no rows yields no frame. -/
theorem scrape_dataset_none {page : Page} (y : Str)
    (h : page.headerCells = none ∨ page.rows = []) :
    scrape_dataset page y = none := by
  unfold scrape_dataset
  rcases h with h | h
  · rw [h]
  · cases hth : page.headerCells with
    | none => rfl
    | some ths =>
      simp only [h, List.isEmpty_nil, if_pos]

/-- The sixteen campaign output filenames are pairwise distinct. -/
theorem fileOf_nodup : (allUnits.map (fun u => fileOf u.1 u.2)).Nodup := by
  decide

/-- A unit that produces nothing can be removed from the loop without
changing what is written. -/
theorem filterMap_erase_none {α β : Type} [BEq α] [LawfulBEq α]
    (f : α → Option β) :
    ∀ (l : List α) (a : α), f a = none →
      l.filterMap f = (l.erase a).filterMap f
  | [], _, _ => rfl
  | x :: t, a, h => by
    cases hab : x == a with
    | true =>
      have hxa : x = a := eq_of_beq hab
      subst hxa
      rw [List.erase_cons_head]
      simp [List.filterMap_cons, h]
    | false =>
      rw [List.erase_cons_tail (by simp [hab])]
      rw [List.filterMap_cons, List.filterMap_cons,
        filterMap_erase_none f t a h]

/-- C9: a unit whose extraction yields no headers or no rows is
signalled as "no data" (the harvester returns nothing rather than
raising), no output artifact is written for it, and the campaign's
outputs are exactly those of the remaining units. -/
theorem no_data_unit_skipped (pages : Str → Str → Page) (k y : Str)
    (hu : (k, y) ∈ allUnits)
    (hnd : (pages k y).headerCells = none ∨ (pages k y).rows = []) :
    scrape_dataset (pages k y) y = none ∧
    fileOf k y ∉ (runCampaign pages).map Prod.fst ∧
    runCampaign pages = runCampaignOver (allUnits.erase (k, y)) pages := by
  have hnone : scrape_dataset (pages k y) y = none :=
    scrape_dataset_none y hnd
  have hout : unitOutput pages (k, y) = none := by
    unfold unitOutput
    simp only []
    rw [hnone]
  refine ⟨hnone, ?_, ?_⟩
  · intro hmem
    obtain ⟨r, hr, hrf⟩ := List.mem_map.mp hmem
    obtain ⟨u, hu2, hu3⟩ := List.mem_filterMap.mp hr
    have hufile : fileOf u.1 u.2 = fileOf k y := by
      unfold unitOutput at hu3
      revert hu3
      cases scrape_dataset (pages u.1 u.2) u.2 with
      | none => intro h3; cases h3
      | some df =>
        simp only []
        by_cases hemp : frameEmpty df = true
        · simp [hemp]
        · have : (!frameEmpty df) = true := by
            revert hemp; cases frameEmpty df <;> simp
          rw [if_pos this]
          intro h3
          have := Option.some.injEq _ _ ▸ h3
          rw [← this] at hrf
          exact hrf
    have huy : u = (k, y) := by
      have hinj := List.inj_on_of_nodup_map fileOf_nodup
      exact hinj hu2 hu hufile
    rw [huy, hout] at hu3
    cases hu3
  · show runCampaign pages = runCampaignOver (allUnits.erase (k, y)) pages
    unfold runCampaign runCampaignOver
    exact filterMap_erase_none (unitOutput pages) allUnits (k, y) hout

/-- A concrete campaign in which exactly one unit, `crime/2023`, has a
header timeout and every other unit renders one city row. -/
def pagesOneTimeout : Str → Str → Page := fun k y =>
  if k = ("crime".toList) ∧ y = ("2023".toList) then ⟨none, []⟩
  else ⟨some [⟨("City".toList), none⟩], [[("Oslo, Norway".toList)]]⟩

/-- Concrete instantiation of the C9 theorem: the `crime/2023` unit
times out, writes nothing, and the campaign result is that of the
other fifteen units. -/
theorem no_data_unit_skipped_witness :
    scrape_dataset (pagesOneTimeout ("crime".toList) ("2023".toList))
      ("2023".toList) = none ∧
    fileOf ("crime".toList) ("2023".toList) ∉
      (runCampaign pagesOneTimeout).map Prod.fst ∧
    runCampaign pagesOneTimeout =
      runCampaignOver (allUnits.erase (("crime".toList), ("2023".toList)))
        pagesOneTimeout :=
  no_data_unit_skipped pagesOneTimeout ("crime".toList) ("2023".toList)
    (by decide) (by decide)

/-- C1 is refuted as stated: a campaign in which every unit fails (all
sixteen pages time out) writes zero outputs yet still exits with code
0, not a non-zero hard-failure exit. -/
theorem campaign_zero_success_exit_cex :
    ((mainScraper (fun _ _ => ⟨none, []⟩)).1).length = 0 ∧
    (mainScraper (fun _ _ => ⟨none, []⟩)).2 = 0 := by decide

/-- C1 (amended): the harvest campaign always terminates normally with
exit code 0 — also when zero units succeed — and reports as its total
exactly the number of successful units; the non-zero exit on total
failure exists only in the unify stage, not in `scraper.main`. -/
theorem mainScraper_exit (pages : Str → Str → Page) :
    (mainScraper pages).2 = 0 ∧
    (mainScraper pages).1.length = allUnits.countP (unitSuccess pages) := by
  constructor
  · rfl
  · unfold mainScraper runCampaign runCampaignOver unitSuccess
    simp only []
    exact List.length_filterMap_eq_countP (unitOutput pages) allUnits

end Scraper

namespace ImportDb

/-- A cell of the unified store: the text loaded from a CSV, a number
after coercion, or null (pandas NaN / SQL NULL). -/
inductive Value where
  | vStr : Str → Value
  | vNum : ℚ → Value
  | vNull : Value
deriving DecidableEq

/-- A DataFrame at the import stage: row count and named columns. -/
structure ITable where
  nrows : Nat
  cols : List (Str × List Value)
deriving DecidableEq

/-- Reading a column by name. -/
def lookupColI (n : Str) (t : ITable) : Option (List Value) :=
  (t.cols.find? (fun c => c.1 == n)).map Prod.snd

/-- Column assignment, as for the scraper frames. -/
def setColI (n : Str) (vals : List Value) (t : ITable) : ITable :=
  if (t.cols.find? (fun c => c.1 == n)).isSome then
    ⟨t.nrows, t.cols.map (fun c => if c.1 == n then (n, vals) else c)⟩
  else ⟨t.nrows, t.cols ++ [(n, vals)]⟩

/-- An ASCII digit. -/
def isDigit (c : Char) : Bool := 48 ≤ c.toNat && c.toNat ≤ 57

/-- Whether every character is an ASCII digit. -/
def allDigits (l : Str) : Bool := l.all isDigit

/-- The natural number a digit string denotes. -/
def natOfDigits (l : Str) : Nat :=
  l.foldl (fun a c => a * 10 + (c.toNat - 48)) 0

/-- Modelled from the spec: the numeric parsing of the external
`pd.to_numeric` library call (the spec requires only that parseable
values become numbers and everything else becomes null, never an
error).  A decimal grammar: optional surrounding whitespace, optional
sign, digits with an optional fractional part. -/
def parseNum (s : Str) : Option ℚ :=
  let t := trim s
  let su : Bool × Str :=
    match t with
    | '-' :: r => (true, r)
    | '+' :: r => (false, r)
    | _ => (false, t)
  let ip := su.2.takeWhile isDigit
  let core : Option ℚ :=
    match su.2.dropWhile isDigit with
    | [] => if ip.isEmpty then none else some ((natOfDigits ip : ℚ))
    | '.' :: fp =>
      if (ip.isEmpty && fp.isEmpty) || !(allDigits fp) then none
      else some ((natOfDigits ip : ℚ) +
        (natOfDigits fp : ℚ) / (10 : ℚ) ^ fp.length)
    | _ => none
  core.map (fun q => if su.1 then -q else q)

/-- The `errors=` mode of `pd.to_numeric`. -/
inductive ErrorsMode where
  | raiseErrors
  | coerceErrors
deriving DecidableEq

/-- `pd.to_numeric` on one value: numbers and nulls pass through,
strings are parsed; an unparseable string is an error under
`errors="raise"` and null under `errors="coerce"`. -/
def to_numeric (mode : ErrorsMode) (v : Value) : Except Str Value :=
  match v with
  | .vNull => Except.ok .vNull
  | .vNum q => Except.ok (.vNum q)
  | .vStr s =>
    match parseNum s with
    | some q => Except.ok (.vNum q)
    | none =>
      match mode with
      | .coerceErrors => Except.ok .vNull
      | .raiseErrors => Except.error s

/-- The protected text columns of `import_db.coerce_numerics`. -/
def non_numeric : List Str :=
  [("city".toList), ("country".toList), ("year".toList)]

/-- `import_db.coerce_numerics`: convert every column outside
`non_numeric` with `pd.to_numeric(df[col], errors="coerce")`. -/
def coerce_numerics (df : ITable) : Except Str ITable := do
  let cols ← df.cols.mapM (fun c =>
    if c.1 ∈ non_numeric then pure c
    else do
      let vals ← c.2.mapM (to_numeric ErrorsMode.coerceErrors)
      pure (c.1, vals))
  pure ⟨df.nrows, cols⟩

/-- The pure per-value effect of coercion under `errors="coerce"`. -/
def coerceVal (v : Value) : Value :=
  match v with
  | .vStr s =>
    match parseNum s with
    | some q => .vNum q
    | none => .vNull
  | x => x

/-- Under `errors="coerce"` the conversion never fails. -/
theorem to_numeric_coerce_ok (v : Value) :
    to_numeric ErrorsMode.coerceErrors v = Except.ok (coerceVal v) := by
  cases v with
  | vNull => rfl
  | vNum q => rfl
  | vStr s => cases hp : parseNum s <;> simp [to_numeric, coerceVal, hp]

/-- Coercing a whole column never fails. -/
theorem mapM_to_numeric_ok (l : List Value) :
    l.mapM (to_numeric ErrorsMode.coerceErrors) =
      Except.ok (l.map coerceVal) := by
  induction l with
  | nil => rfl
  | cons v t ih =>
    rw [List.mapM_cons, to_numeric_coerce_ok, ih]
    rfl

/-- C7: `coerce_numerics` never raises — it returns, for every input
table, the table in which each non-protected column is mapped through
the pure coercion — and the coercion sends every string that fails to
parse as a number to null. -/
theorem coerce_numerics_spec (df : ITable) :
    coerce_numerics df = Except.ok
      ⟨df.nrows, df.cols.map (fun c =>
        if c.1 ∈ non_numeric then c else (c.1, c.2.map coerceVal))⟩ ∧
    ∀ s : Str, parseNum s = none → coerceVal (.vStr s) = Value.vNull := by
  constructor
  · have hmap : ∀ cols : List (Str × List Value),
        cols.mapM (fun c =>
          if c.1 ∈ non_numeric then pure c
          else do
            let vals ← c.2.mapM (to_numeric ErrorsMode.coerceErrors)
            pure (c.1, vals)) =
        Except.ok (cols.map (fun c =>
          if c.1 ∈ non_numeric then c else (c.1, c.2.map coerceVal))) := by
      intro cols
      induction cols with
      | nil => rfl
      | cons c t ih =>
        rw [List.mapM_cons, ih]
        by_cases hc : c.1 ∈ non_numeric
        · rw [List.map_cons, if_pos hc, if_pos hc]
          rfl
        · rw [List.map_cons, if_neg hc, if_neg hc, mapM_to_numeric_ok]
          rfl
    unfold coerce_numerics
    rw [hmap]
    rfl
  · intro s hs
    simp [coerceVal, hs]

end ImportDb

deriving instance DecidableEq for Except

namespace ImportDb

/-- Coercion keeps protected columns exactly as they were. -/
theorem find?_coerce_protected (n : Str) (hn : n ∈ non_numeric) :
    ∀ (cols : List (Str × List Value)),
    (cols.map (fun c => if c.1 ∈ non_numeric then c
      else (c.1, c.2.map coerceVal))).find? (fun c => c.1 == n) =
      cols.find? (fun c => c.1 == n)
  | [] => rfl
  | c :: t => by
    by_cases hc : (c.1 == n) = true
    · have hc1 : c.1 = n := by simpa using hc
      have hcp : c.1 ∈ non_numeric := by rw [hc1]; exact hn
      rw [List.map_cons, if_pos hcp]
      rw [List.find?.eq_def]
      conv_rhs => rw [List.find?.eq_def]
      simp only [hc]
    · have hc' : (c.1 == n) = false := by
        revert hc; cases (c.1 == n) <;> simp
      rw [List.map_cons]
      by_cases hcp : c.1 ∈ non_numeric
      · rw [if_pos hcp]
        rw [List.find?.eq_def]
        conv_rhs => rw [List.find?.eq_def]
        simp only [hc', Bool.false_eq_true]
        exact find?_coerce_protected n hn t
      · rw [if_neg hcp]
        rw [List.find?.eq_def]
        conv_rhs => rw [List.find?.eq_def]
        simp only [hc', Bool.false_eq_true]
        exact find?_coerce_protected n hn t

/-- Coercion keeps the column-name list. -/
theorem map_fst_coerce (cols : List (Str × List Value)) :
    (cols.map (fun c => if c.1 ∈ non_numeric then c
      else (c.1, c.2.map coerceVal))).map Prod.fst =
      cols.map Prod.fst := by
  induction cols with
  | nil => rfl
  | cons c t ih =>
    by_cases hc : c.1 ∈ non_numeric
    · simp only [List.map_cons, if_pos hc, ih]
    · simp only [List.map_cons, if_neg hc, ih]

/-- Coercion keeps every column's length, hence the row count. -/
theorem map_len_coerce (cols : List (Str × List Value)) :
    (cols.map (fun c => if c.1 ∈ non_numeric then c
      else (c.1, c.2.map coerceVal))).map (fun c => c.2.length) =
      cols.map (fun c => c.2.length) := by
  induction cols with
  | nil => rfl
  | cons c t ih =>
    by_cases hc : c.1 ∈ non_numeric
    · simp only [List.map_cons, if_pos hc, ih]
    · simp only [List.map_cons, if_neg hc, ih, List.length_map]

/-- C10: numeric coercion preserves the table frame — same row count,
same column names in the same order, same per-column lengths — leaves
the protected `city`, `country` and `year` columns untouched, and only
rewrites the values of the remaining columns. -/
theorem coerce_numerics_frame (df df' : ITable)
    (h : coerce_numerics df = Except.ok df') :
    df'.nrows = df.nrows ∧
    df'.cols.map Prod.fst = df.cols.map Prod.fst ∧
    df'.cols.map (fun c => c.2.length) =
      df.cols.map (fun c => c.2.length) ∧
    ∀ n ∈ non_numeric, lookupColI n df' = lookupColI n df := by
  rw [(coerce_numerics_spec df).1] at h
  have hdf : df' = ⟨df.nrows, df.cols.map (fun c =>
      if c.1 ∈ non_numeric then c else (c.1, c.2.map coerceVal))⟩ :=
    (Except.ok.inj h).symm
  subst hdf
  refine ⟨rfl, map_fst_coerce df.cols, map_len_coerce df.cols, ?_⟩
  intro n hn
  unfold lookupColI
  rw [find?_coerce_protected n hn df.cols]

/-- Concrete instantiation of the C10 theorem: coercing a table with a
`city` column and a non-numeric `rank` value keeps the frame and the
`city` column, and nulls only the bad `rank` cell. -/
theorem coerce_numerics_frame_witness :
    (ITable.mk 1 [(("city".toList), [Value.vStr ("Oslo".toList)]),
      (("rank".toList), [Value.vNull])]).nrows =
      (ITable.mk 1 [(("city".toList), [Value.vStr ("Oslo".toList)]),
        (("rank".toList), [Value.vStr ("x1".toList)])]).nrows ∧
    (ITable.mk 1 [(("city".toList), [Value.vStr ("Oslo".toList)]),
      (("rank".toList), [Value.vNull])]).cols.map Prod.fst =
      (ITable.mk 1 [(("city".toList), [Value.vStr ("Oslo".toList)]),
        (("rank".toList), [Value.vStr ("x1".toList)])]).cols.map Prod.fst ∧
    (ITable.mk 1 [(("city".toList), [Value.vStr ("Oslo".toList)]),
      (("rank".toList), [Value.vNull])]).cols.map (fun c => c.2.length) =
      (ITable.mk 1 [(("city".toList), [Value.vStr ("Oslo".toList)]),
        (("rank".toList),
          [Value.vStr ("x1".toList)])]).cols.map (fun c => c.2.length) ∧
    ∀ n ∈ non_numeric,
      lookupColI n (ITable.mk 1
        [(("city".toList), [Value.vStr ("Oslo".toList)]),
          (("rank".toList), [Value.vNull])]) =
      lookupColI n (ITable.mk 1
        [(("city".toList), [Value.vStr ("Oslo".toList)]),
          (("rank".toList), [Value.vStr ("x1".toList)])]) :=
  coerce_numerics_frame
    (ITable.mk 1 [(("city".toList), [Value.vStr ("Oslo".toList)]),
      (("rank".toList), [Value.vStr ("x1".toList)])])
    (ITable.mk 1 [(("city".toList), [Value.vStr ("Oslo".toList)]),
      (("rank".toList), [Value.vNull])])
    (by decide)

end ImportDb

namespace ImportDb

/-- The column names of a table. -/
def colNamesI (t : ITable) : List Str := t.cols.map Prod.fst

/-- `pd.concat(frames, ignore_index=True)`: the union of the columns in
first-appearance order; a frame missing a column contributes nulls for
its rows.  The row count is the sum of the frames' row counts. -/
def concatTables (ts : List ITable) : ITable :=
  ⟨(ts.map (fun t => t.nrows)).sum,
   ((ts.flatMap colNamesI).dedup).map (fun n =>
     (n, ts.flatMap (fun t =>
       (lookupColI n t).getD (List.replicate t.nrows Value.vNull))))⟩

/-- `import_db.load_csvs` as a function of the per-file frames that
loaded successfully (CSV cells load as strings, missing cells as null).
The temporary `_source_file` column is added and dropped again inside
the function, a net no-op not modelled.  `none` when no frame loaded. -/
def load_csvs (frames : List ITable) : Option ITable :=
  if frames.isEmpty then none else some (concatTables frames)

/-- pandas `astype(str)` on one cell: strings stay themselves and a
missing value prints as `"nan"`.  (Numbers cannot occur in the columns
this is applied to: coercion skips them.) -/
def valToStr (v : Value) : Str :=
  match v with
  | .vStr s => s
  | .vNull => ("nan".toList)
  | .vNum _ => ("<num>".toList)

/-- The ensure loop of `import_db.import_table`: give every required
text column a `""` value for every row when it is absent. -/
def ensureCols (t : ITable) : ITable :=
  non_numeric.foldl (fun acc n =>
    if (lookupColI n acc).isSome then acc
    else ⟨acc.nrows,
      acc.cols ++ [(n, List.replicate acc.nrows (Value.vStr []))]⟩) t

/-- The strip loop of `import_db.import_table`:
`df[col] = df[col].astype(str).str.strip()` for the required text
columns. -/
def stripTextCols (t : ITable) : ITable :=
  non_numeric.foldl (fun acc n =>
    match lookupColI n acc with
    | none => acc
    | some vals =>
      setColI n (vals.map (fun v => Value.vStr (trim (valToStr v)))) acc) t

/-- The SQLite database: tables by name. -/
abbrev DB := List (Str × ITable)

/-- Reading a table by name. -/
def getTable (n : Str) (db : DB) : Option ITable :=
  (db.find? (fun p => p.1 == n)).map Prod.snd

/-- `df.to_sql(table_name, conn, if_exists="replace")`: the destination
table is wholly replaced. -/
def setTable (n : Str) (t : ITable) (db : DB) : DB :=
  (n, t) :: db.filter (fun p => !(p.1 == n))

/-- `import_db.import_table` as a function of the loaded frames: skip
(leaving the database unchanged and reporting failure) when nothing
loaded or the combined frame is empty, otherwise coerce, ensure and
strip the text columns, and replace the destination table.  An
exception from the conversion would propagate (the `error` branch); by
`coerce_numerics_spec` it never fires. -/
def import_table (frames : List ITable) (tname : Str) (db : DB) :
    Except Str (DB × Bool) :=
  match load_csvs frames with
  | none => Except.ok (db, false)
  | some df =>
    if df.nrows == 0 || df.cols.isEmpty then Except.ok (db, false)
    else
      match coerce_numerics df with
      | Except.error e => Except.error e
      | Except.ok df2 =>
        Except.ok (setTable tname (stripTextCols (ensureCols df2)) db, true)

/-- Replacing a table twice with the same content is the same as
replacing it once. -/
theorem setTable_idem (n : Str) (t : ITable) (db : DB) :
    setTable n t (setTable n t db) = setTable n t db := by
  unfold setTable
  rw [List.filter_cons_of_neg (by simp)]
  rw [List.filter_filter]
  congr 1
  apply List.filter_congr
  intro p _
  cases (p.1 == n) <;> rfl

/-- C8: re-running the importer on the database it just produced, with
the same input batches, returns that database unchanged (the
destination table is replaced with identical content, so content and
row count agree between the two runs) and the same success flag. -/
theorem import_table_idempotent (frames : List ITable) (tname : Str)
    (db db1 : DB) (ok1 : Bool)
    (h1 : import_table frames tname db = Except.ok (db1, ok1)) :
    import_table frames tname db1 = Except.ok (db1, ok1) := by
  unfold import_table at h1 ⊢
  cases hl : load_csvs frames with
  | none =>
    rw [hl] at h1
    simp only [] at h1 ⊢
    have h2 := Except.ok.inj h1
    injection h2 with ha hb
    subst ha
    subst hb
    rfl
  | some df =>
    rw [hl] at h1
    simp only [] at h1 ⊢
    by_cases hemp : (df.nrows == 0 || df.cols.isEmpty) = true
    · rw [if_pos hemp] at h1 ⊢
      have h2 := Except.ok.inj h1
      injection h2 with ha hb
      subst ha
      subst hb
      rfl
    · rw [if_neg hemp] at h1 ⊢
      rw [(coerce_numerics_spec df).1] at h1 ⊢
      simp only [] at h1 ⊢
      have h2 := Except.ok.inj h1
      have hdb1 : db1 = setTable tname (stripTextCols (ensureCols
          ⟨df.nrows, df.cols.map (fun c =>
            if c.1 ∈ non_numeric then c
            else (c.1, c.2.map coerceVal))⟩)) db :=
        (congrArg Prod.fst h2).symm
      have hok1 : ok1 = true := (congrArg Prod.snd h2).symm
      rw [hdb1, hok1, setTable_idem]

end ImportDb

namespace ImportDb

/-- Concrete instantiation of the C8 theorem: re-importing the same
single batch over the database the first run produced returns exactly
that database again. -/
theorem import_table_idempotent_witness :
    import_table
      [⟨1, [(("city".toList), [Value.vStr ("Oslo".toList)]),
            (("rank".toList), [Value.vStr ("2".toList)])]⟩]
      ("crime".toList)
      [(("crime".toList), ⟨1,
        [(("city".toList), [Value.vStr ("Oslo".toList)]),
         (("rank".toList), [Value.vNum 2]),
         (("country".toList), [Value.vStr []]),
         (("year".toList), [Value.vStr []])]⟩)] =
      Except.ok ([(("crime".toList), ⟨1,
        [(("city".toList), [Value.vStr ("Oslo".toList)]),
         (("rank".toList), [Value.vNum 2]),
         (("country".toList), [Value.vStr []]),
         (("year".toList), [Value.vStr []])]⟩)], true) :=
  import_table_idempotent
    [⟨1, [(("city".toList), [Value.vStr ("Oslo".toList)]),
          (("rank".toList), [Value.vStr ("2".toList)])]⟩]
    ("crime".toList) []
    [(("crime".toList), ⟨1,
      [(("city".toList), [Value.vStr ("Oslo".toList)]),
       (("rank".toList), [Value.vNum 2]),
       (("country".toList), [Value.vStr []]),
       (("year".toList), [Value.vStr []])]⟩)] true (by decide)

end ImportDb
